import Mathlib

/-!
Verification development for the Chinese natural-language time parser
(`TimeParser` in `src/utils/time_parser.py`).

The parser is embedded shallowly: strings are `List Char`, Python regular
expression searches are modelled by hand-written scanners that reproduce the
leftmost-match, greedy, ordered-alternation semantics of the concrete patterns
used in the source, and `datetime` values are a record of calendar fields with
explicit validity checks (a failed `datetime` construction or `replace`, which
raises `ValueError` in Python, is modelled as `none`).  The third-party
`dateparser` fallback is an external collaborator and is passed in as an
opaque function argument `fb`.
-/

namespace TimeParserModel

abbrev Str := List Char

/-- Prefix test on character lists. -/
def isPrefixL : Str → Str → Bool
  | [], _ => true
  | _ :: _, [] => false
  | a :: as, b :: bs => a == b && isPrefixL as bs

/-- Substring containment (Python `needle in hay`). -/
def containsSub (n : Str) : Str → Bool
  | [] => n.isEmpty
  | c :: rest => isPrefixL n (c :: rest) || containsSub n rest

/-- Python whitespace characters stripped by `str.strip()` (ASCII subset). -/
def isPyWS (c : Char) : Bool :=
  c == ' ' || c == '\t' || c == '\n' || c == '\r' || c == '\x0b' || c == '\x0c'

/-- Python `str.strip()`. -/
def stripL (s : Str) : Str :=
  ((s.dropWhile isPyWS).reverse.dropWhile isPyWS).reverse

/-- Maximal prefix run of characters satisfying `cls`, and the rest. -/
def takeRun (cls : Char → Bool) : Str → Str × Str
  | [] => ([], [])
  | c :: rest =>
    if cls c then
      let p := takeRun cls rest
      (c :: p.1, p.2)
    else ([], c :: rest)

/-- Worker for `replaceAll`, structurally recursive on a fuel bound so that
it reduces definitionally.  The fuel drops by one per consumed character, so
any fuel of at least `s.length` gives the untruncated behaviour. -/
def replaceAllAux (k v : Str) : Nat → Str → Str
  | _, [] => []
  | 0, s => s
  | fuel + 1, c :: rest =>
    if k.isEmpty = false && isPrefixL k (c :: rest) then
      v ++ replaceAllAux k v fuel (rest.drop (k.length - 1))
    else
      c :: replaceAllAux k v fuel rest

/-- Python `str.replace(k, v)`: replace all non-overlapping occurrences of `k`
by `v`, scanning left to right. -/
def replaceAll (k v s : Str) : Str :=
  replaceAllAux k v s.length s

/-- Worker for `subRun`, structurally recursive on a fuel bound. -/
def subRunAux (cls : Char → Bool) (marker repl : Str) : Nat → Str → Str
  | _, [] => []
  | 0, s => s
  | fuel + 1, c :: rest =>
    if cls c then
      let p := takeRun cls (c :: rest)
      if isPrefixL marker p.2 then
        p.1 ++ repl ++ subRunAux cls marker repl fuel (p.2.drop marker.length)
      else
        c :: subRunAux cls marker repl fuel rest
    else
      c :: subRunAux cls marker repl fuel rest

/-- Python `re.sub` for the patterns of shape `(cls+)marker` with replacement
`\1 ++ repl` used by the numeral normalizer: leftmost scan; at a `cls`
character take the maximal run; if the marker follows, emit run ++ repl and
continue after the marker, otherwise advance one character.  (Because no
marker starts with a `cls` character this is exactly the backtracking
behaviour of the Python regex engine on these patterns.) -/
def subRun (cls : Char → Bool) (marker repl : Str) (s : Str) : Str :=
  subRunAux cls marker repl s.length s

/-! ## Datetime model

Python `datetime` values are records of calendar fields.  Construction and
`replace` validate month/day/hour/minute ranges and yield `none` where Python
raises `ValueError`.  Years are unbounded integers (the spec never constrains
the year, and no claim involves the MINYEAR/MAXYEAR limits of CPython). -/

structure PyDateTime where
  year : Int
  month : Nat
  day : Nat
  hour : Nat
  minute : Nat
  second : Nat
  micro : Nat
deriving DecidableEq, Repr

def isLeap (y : Int) : Bool :=
  y % 4 == 0 && (y % 100 != 0 || y % 400 == 0)

def daysInMonth (y : Int) (m : Nat) : Nat :=
  if m == 2 then (if isLeap y then 29 else 28)
  else if m == 4 || m == 6 || m == 9 || m == 11 then 30
  else 31

def validYMD (y : Int) (m d : Nat) : Bool :=
  1 ≤ m && m ≤ 12 && 1 ≤ d && d ≤ daysInMonth y m

/-- `datetime(year, month, day, hour, minute)`; `none` models `ValueError`. -/
def mkDT (y : Int) (mo d h mi : Nat) : Option PyDateTime :=
  if validYMD y mo d && h ≤ 23 && mi ≤ 59 then
    some ⟨y, mo, d, h, mi, 0, 0⟩
  else none

/-- `datetime.date()` equality: compare the calendar-date fields only. -/
def sameDate (a b : PyDateTime) : Bool :=
  a.year == b.year && a.month == b.month && a.day == b.day

/-- `datetime.date()` strict comparison. -/
def dateLt (a b : PyDateTime) : Bool :=
  a.year < b.year ||
  (a.year == b.year && (a.month < b.month ||
    (a.month == b.month && a.day < b.day)))

/-- Full `datetime` strict comparison (lexicographic on all fields). -/
def dtLt (a b : PyDateTime) : Bool :=
  dateLt a b ||
  (sameDate a b && (a.hour < b.hour ||
    (a.hour == b.hour && (a.minute < b.minute ||
      (a.minute == b.minute && (a.second < b.second ||
        (a.second == b.second && a.micro < b.micro)))))))

/-- `dt.replace(hour=h, minute=m, second=0, microsecond=0)` (with `h`, `m`
already validated by the caller, so construction cannot fail). -/
def setHMS0 (dt : PyDateTime) (h m : Nat) : PyDateTime :=
  { dt with hour := h, minute := m, second := 0, micro := 0 }

/-- `dt.replace(day=d)`; `none` models `ValueError`. -/
def replaceDay (dt : PyDateTime) (d : Nat) : Option PyDateTime :=
  if 1 ≤ d && d ≤ daysInMonth dt.year dt.month then some { dt with day := d }
  else none

/-- `dt.replace(month=m)`; `none` models `ValueError`. -/
def replaceMonth (dt : PyDateTime) (m : Nat) : Option PyDateTime :=
  if 1 ≤ m && m ≤ 12 && dt.day ≤ daysInMonth dt.year m then
    some { dt with month := m }
  else none

/-- `dt.replace(year=y, month=m)`; `none` models `ValueError`. -/
def replaceYearMonth (dt : PyDateTime) (y : Int) (m : Nat) : Option PyDateTime :=
  if 1 ≤ m && m ≤ 12 && dt.day ≤ daysInMonth y m then
    some { dt with year := y, month := m }
  else none

/-- `dt.replace(year=y, month=m, day=d)` with `d` a valid day of `(y, m)` at
every call site in the source (always day 1), hence total here. -/
def replaceYMD (dt : PyDateTime) (y : Int) (m d : Nat) : PyDateTime :=
  { dt with year := y, month := m, day := d }

/-- Step one day forward, preserving the time of day. -/
def nextDay (dt : PyDateTime) : PyDateTime :=
  if dt.day < daysInMonth dt.year dt.month then { dt with day := dt.day + 1 }
  else if dt.month < 12 then { dt with month := dt.month + 1, day := 1 }
  else { dt with year := dt.year + 1, month := 1, day := 1 }

/-- Step one day backward, preserving the time of day. -/
def prevDay (dt : PyDateTime) : PyDateTime :=
  if 1 < dt.day then { dt with day := dt.day - 1 }
  else if 1 < dt.month then
    { dt with month := dt.month - 1, day := daysInMonth dt.year (dt.month - 1) }
  else { dt with year := dt.year - 1, month := 12, day := 31 }

/-- `dt + timedelta(days=k)`. -/
def addDays (dt : PyDateTime) (k : Int) : PyDateTime :=
  if 0 ≤ k then Nat.rec dt (fun _ acc => nextDay acc) k.toNat
  else Nat.rec dt (fun _ acc => prevDay acc) (-k).toNat

/-- Days before the first day of year `y` in the proleptic Gregorian
calendar (`date(1,1,1)` has ordinal 1, as in Python). -/
def daysBeforeYear (y : Int) : Int :=
  365 * (y - 1) + (y - 1).fdiv 4 - (y - 1).fdiv 100 + (y - 1).fdiv 400

/-- Days in year `y` before the first day of month `m`. -/
def daysBeforeMonth (y : Int) (m : Nat) : Nat :=
  (List.range (m - 1)).foldl (fun acc i => acc + daysInMonth y (i + 1)) 0

/-- Python `date.toordinal()`. -/
def toOrdinal (dt : PyDateTime) : Int :=
  daysBeforeYear dt.year + daysBeforeMonth dt.year dt.month + dt.day

/-- Python `date.weekday()`: Monday = 0 .. Sunday = 6. -/
def pyWeekday (dt : PyDateTime) : Int :=
  (toOrdinal dt - 1).emod 7

/-! ## Lookup tables (verbatim from the source, in dict iteration order) -/

/-- Shorthand: a Lean string literal as a character list. -/
def S (s : String) : Str := s.toList

/-- `IMMEDIATE_KEYWORDS`, in dict order. -/
def immediateKeywords : List Str :=
  [S "即刻", S "马上", S "现在", S "立刻", S " right now"]

inductive KwVal where
  | days (n : Int)
  | lastMonth | thisMonth | nextMonth
  | lastYear | thisYear | nextYear
deriving DecidableEq, Repr

/-- `DATE_KEYWORDS`, in dict order. -/
def dateKeywords : List (Str × KwVal) :=
  [(S "大前天", .days (-3)), (S "前天", .days (-2)), (S "昨天", .days (-1)),
   (S "今天", .days 0), (S "今日", .days 0), (S "明日", .days 1),
   (S "明天", .days 1), (S "后天", .days 2), (S "大后天", .days 3),
   (S "上个月", .lastMonth), (S "这个月", .thisMonth), (S "本月", .thisMonth),
   (S "下个月", .nextMonth),
   (S "去年", .lastYear), (S "今年", .thisYear), (S "明年", .nextYear)]

/-- `WEEKDAY_MAP`, in dict order. -/
def weekdayMap : List (Str × Nat) :=
  [(S "周一", 0), (S "星期一", 0), (S "礼拜一", 0),
   (S "周二", 1), (S "星期二", 1), (S "礼拜二", 1),
   (S "周三", 2), (S "星期三", 2), (S "礼拜三", 2),
   (S "周四", 3), (S "星期四", 3), (S "礼拜四", 3),
   (S "周五", 4), (S "星期五", 4), (S "礼拜五", 4),
   (S "周六", 5), (S "星期六", 5), (S "礼拜六", 5),
   (S "周天", 6), (S "周日", 6), (S "星期日", 6), (S "礼拜日", 6),
   (S "星期天", 6)]

inductive Adj where
  | pm | noon | nonea
deriving DecidableEq, Repr

structure Period where
  name : Str
  default : Nat
  adj : Adj
deriving DecidableEq, Repr

/-- `TIME_PERIODS`, in dict order (the `hours` ranges are never read by the
parsing code and are omitted). -/
def timePeriods : List Period :=
  [⟨S "凌晨", 2, .nonea⟩, ⟨S "早上", 7, .nonea⟩, ⟨S "上午", 10, .nonea⟩,
   ⟨S "中午", 12, .noon⟩, ⟨S "午间", 12, .noon⟩, ⟨S "下午", 15, .pm⟩,
   ⟨S "傍晚", 18, .pm⟩, ⟨S "晚上", 20, .pm⟩, ⟨S "晚间", 20, .pm⟩,
   ⟨S "夜间", 22, .pm⟩, ⟨S "半夜", 0, .nonea⟩, ⟨S "深夜", 23, .nonea⟩]

/-- `sorted(CHINESE_NUMBERS.items(), key=lambda x: -len(x[0]))`: the numeral
table in the exact (stable) descending-length order the source iterates. -/
def cnSorted : List (Str × Str) :=
  [(S "二十一", S "21"), (S "二十二", S "22"), (S "二十三", S "23"), (S "二十四", S "24"),
  (S "二十五", S "25"), (S "二十六", S "26"), (S "二十七", S "27"), (S "二十八", S "28"),
  (S "二十九", S "29"), (S "三十一", S "31"), (S "三十二", S "32"), (S "三十三", S "33"),
  (S "三十四", S "34"), (S "三十五", S "35"), (S "三十六", S "36"), (S "三十七", S "37"),
  (S "三十八", S "38"), (S "三十九", S "39"), (S "四十一", S "41"), (S "四十二", S "42"),
  (S "四十三", S "43"), (S "四十四", S "44"), (S "四十五", S "45"), (S "四十六", S "46"),
  (S "四十七", S "47"), (S "四十八", S "48"), (S "四十九", S "49"), (S "五十一", S "51"),
  (S "五十二", S "52"), (S "五十三", S "53"), (S "五十四", S "54"), (S "五十五", S "55"),
  (S "五十六", S "56"), (S "五十七", S "57"), (S "五十八", S "58"), (S "五十九", S "59"),
  (S "十一", S "11"), (S "十二", S "12"), (S "十三", S "13"), (S "十四", S "14"),
  (S "十五", S "15"), (S "十六", S "16"), (S "十七", S "17"), (S "十八", S "18"),
  (S "十九", S "19"), (S "二十", S "20"), (S "三十", S "30"), (S "四十", S "40"),
  (S "五十", S "50"), (S "廿一", S "21"), (S "廿二", S "22"), (S "廿三", S "23"),
  (S "廿四", S "24"), (S "廿五", S "25"), (S "廿六", S "26"), (S "廿七", S "27"),
  (S "廿八", S "28"), (S "廿九", S "29"), (S "零", S "0"), (S "〇", S "0"),
  (S "一", S "1"), (S "壹", S "1"), (S "二", S "2"), (S "贰", S "2"),
  (S "两", S "2"), (S "三", S "3"), (S "叁", S "3"), (S "四", S "4"),
  (S "肆", S "4"), (S "五", S "5"), (S "伍", S "5"), (S "六", S "6"),
  (S "陆", S "6"), (S "七", S "7"), (S "柒", S "7"), (S "八", S "8"),
  (S "捌", S "8"), (S "九", S "9"), (S "玖", S "9"), (S "十", S "10"),
  (S "拾", S "10"), (S "廿", S "20")]

/-- Every single character occurring in a `CHINESE_NUMBERS` key. -/
def cnSingles : Str := S "零〇一壹二贰两三叁四肆五伍六陆七柒八捌九玖十拾廿"

/-- Character class `[一二三四五六七八九十两]` of the `点半` substitution. -/
def halfCls (c : Char) : Bool :=
  (S "一二三四五六七八九十两").contains c

/-- Character class `[一二三四五六七八九十]` of the `刻` substitutions. -/
def keCls (c : Char) : Bool :=
  (S "一二三四五六七八九十").contains c

/-- `_convert_chinese_numbers`: the `半`/`刻` regex substitutions in source
order, then each numeral key replaced longest-first. -/
def convertCN (text : Str) : Str :=
  let r := subRun halfCls (S "点半") (S "点30") text
  let r := subRun Char.isDigit (S "点半") (S "点30") r
  let r := subRun keCls (S "点一刻") (S "点15") r
  let r := subRun keCls (S "点三刻") (S "点45") r
  let r := subRun Char.isDigit (S "点一刻") (S "点15") r
  let r := subRun Char.isDigit (S "点三刻") (S "点45") r
  cnSorted.foldl (fun acc kv => replaceAll kv.1 kv.2 acc) r

/-! ## Regex scanners

Each Python regex used by the source is modelled as a matcher at a single
position plus a leftmost-position search.  For every concrete pattern in the
source, each bounded-digit group `\d{1,2}` is followed by a character that no
digit can match, so the greedy take-up-to-two behaviour below coincides with
the regex engine's backtracking semantics. -/

def dval (c : Char) : Nat := c.toNat - '0'.toNat

/-- Greedy `(\d{1,2})` at the current position. -/
def take12 : Str → Option (Nat × Str)
  | [] => none
  | c :: rest =>
    if c.isDigit then
      match rest with
      | d :: rest2 =>
        if d.isDigit then some (dval c * 10 + dval d, rest2)
        else some (dval c, rest)
      | [] => some (dval c, [])
    else none

/-- `(\d{2})` (exactly two digits) at the current position. -/
def take2 : Str → Option (Nat × Str)
  | c :: d :: rest =>
    if c.isDigit && d.isDigit then some (dval c * 10 + dval d, rest) else none
  | _ => none

/-- `\d{4}` (exactly four digits) at the current position. -/
def take4 : Str → Option (Nat × Str)
  | a :: b :: c :: d :: rest =>
    if a.isDigit && b.isDigit && c.isDigit && d.isDigit then
      some (((dval a * 10 + dval b) * 10 + dval c) * 10 + dval d, rest)
    else none
  | _ => none

def expectChar (c : Char) : Str → Option Str
  | x :: rest => if x == c then some rest else none
  | [] => none

/-- `\s+` at the current position. -/
def takeWS1 : Str → Option Str
  | c :: rest => if isPyWS c then some (rest.dropWhile isPyWS) else none
  | [] => none

/-- Leftmost-position search for a positional matcher (Python `re.search`). -/
def searchPat {α : Type} (m : Str → Option α) : Str → Option α
  | [] => m []
  | c :: rest =>
    match m (c :: rest) with
    | some r => some r
    | none => searchPat m rest

/-! ## Time extractor (`_extract_time`) -/

/-- `(\d{1,2})点(\d{1,2})分?` at one position (the optional `分` does not
affect the captured groups). -/
def hmAtPt (sep : Char) (s : Str) : Option (Nat × Nat) := do
  let (h, r) ← take12 s
  let r ← expectChar sep r
  let (m, _) ← take12 r
  pure (h, m)

/-- `(\d{1,2}):(\d{2})` / `(\d{1,2})\.(\d{2})` at one position. -/
def hmColon (sep : Char) (s : Str) : Option (Nat × Nat) := do
  let (h, r) ← take12 s
  let r ← expectChar sep r
  let (m, _) ← take2 r
  pure (h, m)

/-- `(\d{1,2})点` / `(\d{1,2})时` at one position; minute defaults to 0. -/
def hOnly (sep : Char) (s : Str) : Option (Nat × Nat) := do
  let (h, r) ← take12 s
  let _ ← expectChar sep r
  pure (h, 0)

/-- The six time patterns, in the precedence order of the source. -/
def timePatterns : List (Str → Option (Nat × Nat)) :=
  [searchPat (hmAtPt '点'), searchPat (hmAtPt '时'),
   searchPat (hmColon ':'), searchPat (hmColon '.'),
   searchPat (hOnly '点'), searchPat (hOnly '时')]

/-- First period word of `TIME_PERIODS` (dict order) contained in the
original text — the `break` in the source's period loop. -/
def findPeriod (ot : Str) : Option Period :=
  timePeriods.find? (fun p => containsSub p.name ot)

/-- The period adjustment applied to a matched hour (`adjust == "pm"` adds 12
below 12; `adjust == "noon"` forces at least 12). -/
def adjustHour (po : Option Period) (h : Nat) : Nat :=
  match po with
  | none => h
  | some p =>
    match p.adj with
    | .pm => if h < 12 then h + 12 else h
    | .noon => if h < 12 then max h 12 else h
    | .nonea => h

/-- The pattern loop of `_extract_time`: first pattern that matches and whose
adjusted value passes the 0–23 / 0–59 validation wins; an invalid value falls
through to the next pattern. -/
def patLoop (po : Option Period) : List (Str → Option (Nat × Nat)) → Str → Option (Nat × Nat)
  | [], _ => none
  | f :: fs, ct =>
    match f ct with
    | some (h0, m) =>
      let h := adjustHour po h0
      if h ≤ 23 && m ≤ 59 then some (h, m) else patLoop po fs ct
    | none => patLoop po fs ct

/-- `_extract_time(converted_text, original_text)`. -/
def extractTime (ct ot : Str) : Option (Nat × Nat) :=
  match patLoop (findPeriod ot) timePatterns ct with
  | some r => some r
  | none =>
    match findPeriod ot with
    | some p => some (p.default, 0)
    | none =>
      if containsSub (S "子夜") ot then some (0, 0)
      else if containsSub (S "黄昏") ot then some (18, 0)
      else none

/-! ## Date extractor (`_extract_date`) -/

/-- `(\d{1,2})[号日]` at one position. -/
def dayAt (s : Str) : Option Nat := do
  let (n, r) ← take12 s
  match r with
  | c :: _ => if c == '号' || c == '日' then pure n else none
  | [] => none

/-- Tier 0 of `_extract_date`: day-of-month shorthand.  A `ValueError` from
either `replace` is caught by the source's `try/except` and falls through to
the next tier (`none` here). -/
def dayTier (text : Str) (ref : PyDateTime) : Option PyDateTime :=
  match searchPat dayAt text with
  | none => none
  | some n =>
    if 1 ≤ n && n ≤ 31 then
      match replaceDay ref n with
      | none => none
      | some r1 =>
        if dateLt r1 ref then
          if ref.month == 12 then replaceYearMonth r1 (ref.year + 1) 1
          else replaceMonth r1 (ref.month + 1)
        else some r1
    else none

inductive WPfx where
  | xiaxia | xia | zhe | ben | shangshang | shang
deriving DecidableEq, Repr

/-- The week-qualifier alternatives, in the order of the regex alternation
`(下下周|下周|这周|本周|上上周|上周)?`. -/
def weekPfxStrs : List (Str × WPfx) :=
  [(S "下下周", .xiaxia), (S "下周", .xia), (S "这周", .zhe),
   (S "本周", .ben), (S "上上周", .shangshang), (S "上周", .shang)]

/-- Character class `[一二三四五六七日天]` of the weekday group. -/
def wdCls (c : Char) : Bool := (S "一二三四五六七日天").contains c

/-- The weekday group `(周[..]|星期[..]|礼拜[..])` at one position, returning
the matched text. -/
def tryG2 : Str → Option Str
  | '周' :: c :: _ => if wdCls c then some ('周' :: [c]) else none
  | '星' :: '期' :: c :: _ => if wdCls c then some ('星' :: '期' :: [c]) else none
  | '礼' :: '拜' :: c :: _ => if wdCls c then some ('礼' :: '拜' :: [c]) else none
  | _ => none

/-- Try each week-qualifier alternative (with the weekday group as
continuation) in regex-alternation order, then the empty alternative: the
backtracking behaviour of the optional group. -/
def tryPfxList : List (Str × WPfx) → Str → Option (Option WPfx × Str)
  | [], s => (tryG2 s).map (fun g => (none, g))
  | (p, tag) :: rest, s =>
    if isPrefixL p s then
      match tryG2 (s.drop p.length) with
      | some g => some (some tag, g)
      | none => tryPfxList rest s
    else tryPfxList rest s

/-- The whole week pattern at one position. -/
def weekAt (s : Str) : Option (Option WPfx × Str) := tryPfxList weekPfxStrs s

/-- `WEEKDAY_MAP` lookup: first alias (dict order) contained in the matched
weekday text. -/
def weekdayLookup (g : Str) : Option Nat :=
  (weekdayMap.find? (fun kv => containsSub kv.1 g)).map (fun kv => kv.2)

/-- Tier 1 of `_extract_date`: weekday with optional week qualifier. -/
def weekTier (text : Str) (ref : PyDateTime) : Option PyDateTime :=
  match searchPat weekAt text with
  | none => none
  | some (wpfx, g2) =>
    match weekdayLookup g2 with
    | none => none
    | some tw =>
      let cw : Int := pyWeekday ref
      let twI : Int := tw
      match wpfx with
      | none =>
        some (addDays ref (if twI - cw < 0 then twI - cw + 7 else twI - cw))
      | some .zhe =>
        some (addDays ref (if twI - cw < 0 then twI - cw + 7 else twI - cw))
      | some .ben =>
        some (addDays ref (if twI - cw < 0 then twI - cw + 7 else twI - cw))
      | some .xia => some (addDays ref ((6 - cw) + 1 + twI))
      | some .xiaxia => some (addDays ref ((6 - cw) + 1 + 7 + twI))
      | some .shang => some (addDays ref (-(cw + 7 - twI)))
      | some .shangshang => some (addDays ref (-(cw + 14 - twI)))

/-- Interpretation of a matched `DATE_KEYWORDS` value. -/
def kwInterp (v : KwVal) (ref : PyDateTime) : PyDateTime :=
  match v with
  | .days n => addDays ref n
  | .lastMonth =>
    if ref.month == 1 then replaceYMD ref (ref.year - 1) 12 1
    else replaceYMD ref ref.year (ref.month - 1) 1
  | .thisMonth => { ref with day := 1 }
  | .nextMonth =>
    if ref.month == 12 then replaceYMD ref (ref.year + 1) 1 1
    else replaceYMD ref ref.year (ref.month + 1) 1
  | .lastYear => replaceYMD ref (ref.year - 1) 1 1
  | .thisYear => replaceYMD ref ref.year 1 1
  | .nextYear => replaceYMD ref (ref.year + 1) 1 1

/-- Tier 2 of `_extract_date`: first date keyword (dict order) contained in
the text. -/
def kwTier (text : Str) (ref : PyDateTime) : Option PyDateTime :=
  (dateKeywords.find? (fun kv => containsSub kv.1 text)).map
    (fun kv => kwInterp kv.2 ref)

/-- `_extract_date(text, reference_time)`. -/
def extractDate (text : Str) (ref : PyDateTime) : Option PyDateTime :=
  match dayTier text ref with
  | some d => some d
  | none =>
    match weekTier text ref with
    | some d => some d
    | none => kwTier text ref

/-- `any(kw in time_str for kw in DATE_KEYWORDS)`. -/
def hasDateKw (text : Str) : Bool :=
  dateKeywords.any (fun kv => containsSub kv.1 text)

/-! ## Combiner (`_parse_complex_time`) -/

/-- `_parse_complex_time(time_str, reference_time)`. -/
def parseComplex (t : Str) (ref : PyDateTime) : Option PyDateTime :=
  let dateRes := match extractDate t ref with | some d => d | none => ref
  match extractTime (convertCN t) t with
  | some hm =>
    let base := setHMS0 dateRes hm.1 hm.2
    some (if sameDate dateRes ref && dtLt base ref && !hasDateKw t then
            addDays base 1
          else base)
  | none =>
    if !sameDate dateRes ref then some (setHMS0 dateRes 9 0) else none

/-! ## Month-day stage (`_parse_month_day`) -/

/-- Character class `[一二三四五六七八九十\d]` (month group). -/
def mdCls (c : Char) : Bool := c.isDigit || (S "一二三四五六七八九十").contains c

/-- Character class `[一二三四五六七八九十廿\d]` (day group). -/
def mdDayCls (c : Char) : Bool :=
  c.isDigit || (S "一二三四五六七八九十廿").contains c

/-- `([一二三四五六七八九十\d]+)月([一二三四五六七八九十廿\d]+)[日号]` at one
position, returning the two captured runs. -/
def cnMDAt (s : Str) : Option (Str × Str) :=
  let p1 := takeRun mdCls s
  if p1.1.isEmpty then none
  else
    match p1.2 with
    | '月' :: r2 =>
      let p2 := takeRun mdDayCls r2
      if p2.1.isEmpty then none
      else
        match p2.2 with
        | c :: _ => if c == '日' || c == '号' then some (p1.1, p2.1) else none
        | [] => none
    | _ => none

/-- Digit-string to number (`int(...)`; `none` models `ValueError`). -/
def toNatDigits (s : Str) : Option Nat :=
  if s.isEmpty || !s.all Char.isDigit then none
  else some (s.foldl (fun acc c => acc * 10 + dval c) 0)

/-- The Chinese month-day tier of `_parse_month_day`; any `ValueError`
(including an invalid `datetime` construction) falls through to the short
`M/D` tier. -/
def monthDayCn (t : Str) (ref : PyDateTime) : Option PyDateTime :=
  match searchPat cnMDAt t with
  | none => none
  | some md =>
    match toNatDigits (convertCN md.1), toNatDigits (convertCN md.2) with
    | some mo, some d =>
      if 1 ≤ mo && mo ≤ 12 && 1 ≤ d && d ≤ 31 then
        match mkDT ref.year mo d 0 0 with
        | none => none
        | some r0 =>
          match (if dateLt r0 ref then mkDT (ref.year + 1) mo d 0 0 else some r0) with
          | none => none
          | some r1 =>
            match extractTime (convertCN t) t with
            | some hm => some (setHMS0 r1 hm.1 hm.2)
            | none => some (setHMS0 r1 9 0)
      else none
    | _, _ => none

/-- Pattern `(\d{1,2})` then a slash or dash then `(\d{1,2})`, at one
position. -/
def shortMDAt (s : Str) : Option (Nat × Nat) := do
  let (mo, r) ← take12 s
  let r ← match r with
          | c :: rest => if c == '/' || c == '-' then some rest else none
          | [] => none
  let (d, _) ← take12 r
  pure (mo, d)

/-- The short `M/D` tier of `_parse_month_day`. -/
def monthDayShort (t : Str) (ref : PyDateTime) : Option PyDateTime :=
  match searchPat shortMDAt t with
  | none => none
  | some md =>
    if 1 ≤ md.1 && md.1 ≤ 12 && 1 ≤ md.2 && md.2 ≤ 31 then
      match mkDT ref.year md.1 md.2 0 0 with
      | none => none
      | some r0 =>
        match (if dateLt r0 ref then mkDT (ref.year + 1) md.1 md.2 0 0 else some r0) with
        | none => none
        | some r1 =>
          match extractTime (convertCN t) t with
          | some hm => some (setHMS0 r1 hm.1 hm.2)
          | none => some (setHMS0 r1 9 0)
    else none

/-- `_parse_month_day(time_str, reference_time)`. -/
def parseMonthDay (t : Str) (ref : PyDateTime) : Option PyDateTime :=
  match monthDayCn t ref with
  | some r => some r
  | none => monthDayShort t ref

/-! ## Top-level pipeline (`TimeParser.parse`)

The `dateparser` fallback is an injected collaborator `fb` (spec section 9
models it as a narrow injected capability); it receives the stripped
expression and the reference instant.  A failed `datetime` construction on
the ISO fast path propagates as an exception to the outer `except`, which
returns `None` — modelled by returning the (possibly `none`) construction
directly. -/

/-- `YYYY-MM-DD HH:MM` anchored at the start (`re.match`). -/
def matchISO (s : Str) : Option (Nat × Nat × Nat × Nat × Nat) := do
  let (y, r) ← take4 s
  let r ← expectChar '-' r
  let (mo, r) ← take12 r
  let r ← expectChar '-' r
  let (d, r) ← take12 r
  let r ← takeWS1 r
  let (h, r) ← take12 r
  let r ← expectChar ':' r
  let (mi, _) ← take2 r
  pure (y, mo, d, h, mi)

/-- First immediate-action keyword contained in the (stripped) expression. -/
def findImmediate (t : Str) : Option Str :=
  immediateKeywords.find? (fun k => containsSub k t)

/-- `TimeParser.parse(time_str, reference_time)` with the `dateparser`
fallback injected as `fb`. -/
def resolve (fb : Str → PyDateTime → Option PyDateTime) (s : Str)
    (ref : PyDateTime) : Option PyDateTime :=
  if stripL s = [] then none
  else
    let t := stripL s
    match findImmediate t with
    | some _ => some ref
    | none =>
      match matchISO t with
      | some ymd =>
        mkDT (Int.ofNat ymd.1) ymd.2.1 ymd.2.2.1 ymd.2.2.2.1 ymd.2.2.2.2
      | none =>
        match parseMonthDay t ref with
        | some r => some r
        | none =>
          match parseComplex t ref with
          | some r => some r
          | none => fb t ref

/-! ## Auxiliary definitions for the statements -/

/-- The always-failing fallback: a legitimate instance of the injected
`dateparser` collaborator (spec treats its result as entirely its own). -/
def fbNone : Str → PyDateTime → Option PyDateTime := fun _ _ => none

/-- A fallback that always succeeds with the reference instant (used to show
that short-circuits do not consult the fallback). -/
def fbEcho : Str → PyDateTime → Option PyDateTime := fun _ r => some r

/-- Reference instant 2026-02-14T20:00 (a Saturday), used by the spec's
worked examples. -/
def refB : PyDateTime := ⟨2026, 2, 14, 20, 0, 0, 0⟩

/-- Reference instant 2026-02-18T10:00, a Wednesday. -/
def wedRef : PyDateTime := ⟨2026, 2, 18, 10, 0, 0, 0⟩

/-- No character of `s` occurs in a `CHINESE_NUMBERS` key. -/
def noCN (s : Str) : Bool := s.all (fun c => !cnSingles.contains c)

/-- None of the fractional-marker sequences `点半`, `点一刻`, `点三刻` occurs
in `s`. -/
def noMarker (s : Str) : Bool :=
  !containsSub (S "点半") s && !containsSub (S "点一刻") s &&
    !containsSub (S "点三刻") s

/-! ## General lemmas -/

set_option maxRecDepth 80000

theorem takeRun_append (cls : Char → Bool) (s : Str) :
    (takeRun cls s).1 ++ (takeRun cls s).2 = s := by
  induction s with
  | nil => rfl
  | cons c rest ih =>
    by_cases h : cls c = true
    · simp [takeRun, h, ih]
    · simp [takeRun, h]

theorem sameDate_refl (a : PyDateTime) : sameDate a a = true := by
  simp [sameDate]

theorem nextDay_hour (dt : PyDateTime) : (nextDay dt).hour = dt.hour := by
  unfold nextDay
  split
  · rfl
  · split <;> rfl

theorem nextDay_minute (dt : PyDateTime) : (nextDay dt).minute = dt.minute := by
  unfold nextDay
  split
  · rfl
  · split <;> rfl

theorem addDays_one_hour (dt : PyDateTime) :
    (addDays dt 1).hour = dt.hour := by
  show (nextDay dt).hour = dt.hour
  exact nextDay_hour dt

theorem addDays_one_minute (dt : PyDateTime) :
    (addDays dt 1).minute = dt.minute := by
  show (nextDay dt).minute = dt.minute
  exact nextDay_minute dt

/-! ## Claim C2 (status: code_bug)

Worked examples: with the reference on 2026-02-25, the extractor resolves
"26号" to Feb 26 at 09:00 and "5号" (already passed) to March 5 at 09:00,
as the claim states.  Failing input: with reference 2026-01-31, "30号"
rolls to February, the `replace(month=2)` raises `ValueError` on Feb 30,
and the source's handler (whose own comment says "date invalid, try next
month") merely `pass`es: the day-of-month tier is abandoned, no date is
extracted, and resolution is left to the generic fallback instead of
skipping to March 30. -/

/-- Claim C2: evaluation of the embedded code on the claim's worked examples
and on the failing input "30号" with reference 2026-01-31 (the day-of-month
tier silently abandons the match instead of skipping an additional month). -/
theorem c2_day_of_month_eval :
    resolve fbNone (S "26号") ⟨2026, 2, 25, 10, 0, 0, 0⟩ =
      some ⟨2026, 2, 26, 9, 0, 0, 0⟩ ∧
    resolve fbNone (S "5号") ⟨2026, 2, 25, 10, 0, 0, 0⟩ =
      some ⟨2026, 3, 5, 9, 0, 0, 0⟩ ∧
    extractDate (S "30号") ⟨2026, 1, 31, 10, 0, 0, 0⟩ = none ∧
    resolve fbNone (S "30号") ⟨2026, 1, 31, 10, 0, 0, 0⟩ = none := by
  refine ⟨by decide, by decide, by decide, by decide⟩

/-! ## Claim C3 (status: code_bug)

The prefix alternation `(下下周|下周|这周|本周|上上周|上周)?` consumes its own
`周`, after which the weekday group still demands a full `周X`/`星期X`/`礼拜X`
token; hence on `下周三` the prefix can never participate in a match and the
regex matches the bare `周三` instead.  With a Wednesday reference the
extractor then returns the reference date itself (offset 0, not +7), the
combiner finds no time and an unchanged date, and resolution falls to the
generic fallback — though the parser's own docstring lists `下周三` and
`下下周一` as supported.  The prefixed `星期`/`礼拜` forms do work: `下周星期三`
resolves to exactly 7 days later. -/

/-- Claim C3: with the Wednesday reference 2026-02-18T10:00, the embedded
extractor resolves "下周三" to the reference date itself (the 下周 prefix is
never captured together with a 周X weekday), resolve falls through to the
fallback, while "下周星期三" does resolve to 2026-02-25 (+7 days) at 09:00. -/
theorem c3_week_qualifier_eval :
    pyWeekday wedRef = 2 ∧
    extractDate (S "下周三") wedRef = some wedRef ∧
    resolve fbNone (S "下周三") wedRef = none ∧
    resolve fbNone (S "下周星期三") wedRef = some ⟨2026, 2, 25, 9, 0, 0, 0⟩ ∧
    addDays wedRef 7 = ⟨2026, 2, 25, 10, 0, 0, 0⟩ := by
  refine ⟨by decide, by decide, by decide, by decide, by decide⟩

/-! ## Claim C7 (status: confirmed) -/

/-- Claim C7: for every reference instant and every fallback, resolving the
canonical compact form "2026-02-14 15:00" yields exactly 2026-02-14T15:00:
the start-anchored ISO matcher fires, the fields are parsed as integers, and
no later pipeline stage (nor the fallback) runs. -/
theorem c7_iso_fast_path (r : PyDateTime)
    (fb : Str → PyDateTime → Option PyDateTime) :
    resolve fb (S "2026-02-14 15:00") r = some ⟨2026, 2, 14, 15, 0, 0, 0⟩ := rfl

/-! ## Claim C9 (status: confirmed) -/

theorem stripL_empty_of_isEmpty {s : Str} (h : (stripL s).isEmpty = true) :
    stripL s = [] := by
  exact List.isEmpty_iff.mp h

/-- Claim C9: resolution is total — it yields either an instant or the
explicit none — and an empty or whitespace-only expression short-circuits to
none immediately, before any parsing stage (in particular the fallback is
never consulted, whatever it would return). -/
theorem c9_total_and_blank_short_circuit (s : Str) (r : PyDateTime)
    (fb : Str → PyDateTime → Option PyDateTime) :
    ((stripL s).isEmpty = true → resolve fb s r = none) ∧
    (resolve fb s r = none ∨ ∃ d, resolve fb s r = some d) := by
  constructor
  · intro h
    unfold resolve
    rw [if_pos (stripL_empty_of_isEmpty h)]
  · cases h : resolve fb s r with
    | none => exact Or.inl rfl
    | some d => exact Or.inr ⟨d, rfl⟩

/-- Claim C9 witness: the empty and a whitespace-only expression resolve to
none even when the fallback would succeed. -/
theorem c9_total_and_blank_short_circuit_witness :
    resolve fbEcho (S "") refB = none ∧ resolve fbEcho (S "   ") refB = none :=
  ⟨(c9_total_and_blank_short_circuit (S "") refB fbEcho).1 (by decide),
   (c9_total_and_blank_short_circuit (S "   ") refB fbEcho).1 (by decide)⟩

/-! ## Claim C10 (status: corrected)

The immediate-keyword containment check runs on the *stripped* expression.
The expression " right now" itself (with its leading space) strips to
"right now", which no longer contains the keyword " right now", so the claim
as stated (containment anywhere in the original string) fails; containment in
the stripped expression is the correct condition. -/

/-- Claim C10 counterexample: the non-empty expression " right now" contains
the immediate keyword " right now" as a substring, yet resolve does not
return the reference instant (it falls through all stages to the fallback). -/
theorem c10_counterexample :
    containsSub (S " right now") (S " right now") = true ∧
    resolve fbNone (S " right now") refB = none ∧
    (none : Option PyDateTime) ≠ some refB := by
  refine ⟨by decide, by decide, by decide⟩

/-- Claim C10 (amended): for every expression whose whitespace-stripped form
contains an immediate-action keyword as a substring, resolve returns the
reference instant verbatim (with all fields, seconds and microseconds
included), whatever other content is present and whatever the fallback would
do, because the containment check precedes every other pipeline stage. -/
theorem c10_immediate_keyword (s : Str) (r : PyDateTime)
    (fb : Str → PyDateTime → Option PyDateTime)
    (h : immediateKeywords.any (fun k => containsSub k (stripL s)) = true) :
    resolve fb s r = some r := by
  obtain ⟨k, hk, hck⟩ := List.any_eq_true.mp h
  have hall : ∀ x ∈ immediateKeywords, x.isEmpty = false := by decide
  have hne : stripL s ≠ [] := by
    intro he
    rw [he] at hck
    have h1 : k.isEmpty = true := hck
    rw [hall k hk] at h1
    exact Bool.false_ne_true h1
  have hfind : (findImmediate (stripL s)).isSome :=
    List.find?_isSome.mpr ⟨k, hk, hck⟩
  obtain ⟨k0, hk0⟩ := Option.isSome_iff_exists.mp hfind
  unfold resolve
  rw [if_neg hne]
  simp only [hk0]

/-- Claim C10 witness: "马上去办" (stripped form contains "马上") resolves to
the reference instant 2026-02-14T20:00 verbatim. -/
theorem c10_immediate_keyword_witness :
    resolve fbNone (S "马上去办") refB = some refB :=
  c10_immediate_keyword (S "马上去办") refB fbNone (by decide)

/-! ## Claim C1 (status: corrected)

The source rolls a date-less time forward one day only when the resulting
instant is *strictly* before the reference (`result < reference_time`), not
"at or before": a result exactly equal to the reference instant is returned
unchanged.  Everything else in the claim (single rollover, the date-keyword
guard, the worked example) matches the code. -/

/-- Claim C1 counterexample: with reference 2026-02-14T20:00:00.000000,
"20点" yields a time candidate (20, 0) and no date; the resulting instant
equals the reference ("at" the reference), no date keyword occurs, and yet no
rollover happens — resolve returns 2026-02-14T20:00, not the next day. -/
theorem c1_counterexample :
    extractDate (S "20点") refB = none ∧
    extractTime (convertCN (S "20点")) (S "20点") = some (20, 0) ∧
    hasDateKw (S "20点") = false ∧
    setHMS0 refB 20 0 = refB ∧
    resolve fbNone (S "20点") refB = some refB ∧
    some refB ≠ some (addDays (setHMS0 refB 20 0) 1) := by
  refine ⟨by decide, by decide, by decide, by decide, by decide, by decide⟩

/-- Claim C1 (amended): whenever the time extractor yields (h, m) and the
date extractor yields no date, the combiner applies the time to the reference
date, and rolls the result forward by exactly one day — never more — exactly
when the resulting instant is strictly before the reference instant and no
date keyword occurs in the text; in particular resolve("三点") with reference
2026-02-14T20:00 yields 2026-02-15T03:00. -/
theorem c1_rollover :
    (∀ t r h m, extractDate t r = none →
        extractTime (convertCN t) t = some (h, m) →
        parseComplex t r =
          some (if dtLt (setHMS0 r h m) r && !hasDateKw t then
                  addDays (setHMS0 r h m) 1
                else setHMS0 r h m)) ∧
    (∀ fb, resolve fb (S "三点") refB = some ⟨2026, 2, 15, 3, 0, 0, 0⟩) := by
  constructor
  · intro t r h m hd ht
    unfold parseComplex
    simp only [hd, ht, sameDate_refl, Bool.true_and]
  · intro fb
    rfl

/-- Claim C1 witness: the amended statement applied to "三点" at reference
2026-02-14T20:00 (time candidate (3, 0), no date). -/
theorem c1_rollover_witness :
    parseComplex (S "三点") refB =
      some (if dtLt (setHMS0 refB 3 0) refB && !hasDateKw (S "三点") then
              addDays (setHMS0 refB 3 0) 1
            else setHMS0 refB 3 0) :=
  c1_rollover.1 (S "三点") refB 3 0 (by decide) (by decide)

/-! ## Claim C4 (status: corrected)

When the extracted date *differs* from the reference date, a time-less
expression indeed resolves to 09:00 on that date.  But when the extracted
date equals the reference date — exactly the claim's "今天 alone" case — the
combiner cannot distinguish an extracted reference-date from no date at all
(`date_result.date() != reference_time.date()` fails) and returns none, so
resolution falls through to the generic fallback instead of 09:00. -/

/-- Claim C4 counterexample: "今天" alone extracts a date equal to the
reference date and no time, yet resolve yields none (the fallback's answer),
not 09:00 on the reference date. -/
theorem c4_counterexample :
    extractDate (S "今天") refB = some refB ∧
    extractTime (convertCN (S "今天")) (S "今天") = none ∧
    resolve fbNone (S "今天") refB = none ∧
    (none : Option PyDateTime) ≠ some (setHMS0 refB 9 0) := by
  refine ⟨by decide, by decide, by decide, by decide⟩

/-- Claim C4 (amended): when the date extractor yields a date and the time
extractor yields none, the combiner returns 09:00 on that date exactly when
the date differs from the reference date; an extracted date equal to the
reference date (e.g. "今天" alone) produces no combiner result and resolution
falls through to the generic fallback. -/
theorem c4_date_only :
    (∀ t r d, extractDate t r = some d →
        extractTime (convertCN t) t = none →
        parseComplex t r =
          (if !sameDate d r then some (setHMS0 d 9 0) else none)) ∧
    (∀ fb, resolve fb (S "明天") refB = some ⟨2026, 2, 15, 9, 0, 0, 0⟩) ∧
    (∀ fb r, resolve fb (S "今天") r = fb (S "今天") r) := by
  refine ⟨?_, ?_, ?_⟩
  · intro t r d hd ht
    unfold parseComplex
    simp only [hd, ht]
  · intro fb
    rfl
  · intro fb r
    have hpc : parseComplex (S "今天") r = none := by
      show (if !sameDate (addDays r 0) r then
              some (setHMS0 (addDays r 0) 9 0)
            else none) = none
      rw [show addDays r 0 = r from rfl, sameDate_refl]
      rfl
    show (match parseComplex (S "今天") r with
          | some x => some x
          | none => fb (S "今天") r) = fb (S "今天") r
    rw [hpc]

/-- Claim C4 witness: the amended statement applied to "明天" at reference
2026-02-14T20:00 (extracted date 2026-02-15, no time): 09:00 on Feb 15. -/
theorem c4_date_only_witness :
    parseComplex (S "明天") refB =
      (if !sameDate ⟨2026, 2, 15, 20, 0, 0, 0⟩ refB then
         some (setHMS0 ⟨2026, 2, 15, 20, 0, 0, 0⟩ 9 0)
       else none) :=
  c4_date_only.1 (S "明天") refB ⟨2026, 2, 15, 20, 0, 0, 0⟩ (by decide) (by decide)

/-! ## Claim C6 (status: confirmed) -/

theorem patLoop_bounds (po : Option Period)
    (fs : List (Str → Option (Nat × Nat))) (ct : Str) (h m : Nat)
    (hr : patLoop po fs ct = some (h, m)) : h ≤ 23 ∧ m ≤ 59 := by
  induction fs with
  | nil => simp [patLoop] at hr
  | cons f fs ih =>
    unfold patLoop at hr
    cases hf : f ct with
    | none =>
      rw [hf] at hr
      exact ih hr
    | some v =>
      rw [hf] at hr
      obtain ⟨h0, m0⟩ := v
      dsimp only at hr
      by_cases hc : (adjustHour po h0 ≤ 23 && m0 ≤ 59) = true
      · rw [if_pos hc] at hr
        injection hr with hr1
        injection hr1 with hh hm
        rw [Bool.and_eq_true, decide_eq_true_eq, decide_eq_true_eq] at hc
        exact ⟨hh ▸ hc.1, hm ▸ hc.2⟩
      · rw [if_neg hc] at hr
        exact ih hr

theorem findPeriod_mem {ot : Str} {p : Period} (h : findPeriod ot = some p) :
    p ∈ timePeriods :=
  List.mem_of_find?_eq_some h

theorem timePeriods_default_le : ∀ p ∈ timePeriods, p.default ≤ 23 := by decide

/-- Claim C6: every time candidate the structured time extractor returns has
hour in 0–23 and minute in 0–59; "25点" in particular is rejected rather than
clamped or wrapped (the extractor yields none) and resolution of "25点" is
handed to the generic fallback, never a clamped or wrapped time. -/
theorem c6_time_candidate_bounds :
    (∀ ct ot h m, extractTime ct ot = some (h, m) → h ≤ 23 ∧ m ≤ 59) ∧
    extractTime (S "25点") (S "25点") = none ∧
    (∀ r fb, resolve fb (S "25点") r = fb (S "25点") r) := by
  refine ⟨?_, by decide, ?_⟩
  · intro ct ot h m hr
    unfold extractTime at hr
    cases hp : patLoop (findPeriod ot) timePatterns ct with
    | some v =>
      rw [hp] at hr
      injection hr with hv
      obtain ⟨h0, m0⟩ := v
      injection hv with hh hm
      have := patLoop_bounds (findPeriod ot) timePatterns ct h0 m0 hp
      exact ⟨hh ▸ this.1, hm ▸ this.2⟩
    | none =>
      rw [hp] at hr
      cases hf : findPeriod ot with
      | some p =>
        rw [hf] at hr
        injection hr with hv
        injection hv with hh hm
        constructor
        · rw [← hh]
          exact timePeriods_default_le p (findPeriod_mem hf)
        · omega
      | none =>
        rw [hf] at hr
        by_cases h1 : containsSub (S "子夜") ot = true
        · rw [if_pos h1] at hr
          injection hr with hv
          injection hv with hh hm
          omega
        · rw [if_neg h1] at hr
          by_cases h2 : containsSub (S "黄昏") ot = true
          · rw [if_pos h2] at hr
            injection hr with hv
            injection hv with hh hm
            omega
          · rw [if_neg h2] at hr
            exact absurd hr (Option.noConfusion)
  · intro r fb
    have hpc : parseComplex (S "25点") r = none := by
      show (if !sameDate r r then some (setHMS0 r 9 0) else none) = none
      rw [sameDate_refl]
      rfl
    show (match parseComplex (S "25点") r with
          | some x => some x
          | none => fb (S "25点") r) = fb (S "25点") r
    rw [hpc]

/-- Claim C6 witness: the bounds theorem applied to the concrete extraction
"3点40" (hour 3, minute 40). -/
theorem c6_time_candidate_bounds_witness : (3 : Nat) ≤ 23 ∧ (40 : Nat) ≤ 59 :=
  c6_time_candidate_bounds.1 (S "3点40") (S "3点40") 3 40 (by decide)

/-! ## Claim C5 (status: confirmed) -/

theorem adjustHour_pm (p : Period) (h0 : Nat) (hadj : p.adj = Adj.pm)
    (hlt : h0 < 12) : adjustHour (some p) h0 = h0 + 12 := by
  simp only [adjustHour, hadj]
  exact if_pos hlt

theorem adjustHour_noon (p : Period) (h0 : Nat) (hadj : p.adj = Adj.noon)
    (hlt : h0 < 12) : adjustHour (some p) h0 = 12 := by
  simp only [adjustHour, hadj]
  rw [if_pos hlt]
  exact Nat.max_eq_right (Nat.le_of_lt hlt)

theorem adjustHour_pm_noon_ge (p : Period) (h0 : Nat)
    (hadj : p.adj = Adj.pm ∨ p.adj = Adj.noon) :
    12 ≤ adjustHour (some p) h0 := by
  rcases hadj with h | h
  · simp only [adjustHour, h]
    split
    · omega
    · omega
  · simp only [adjustHour, h]
    split
    · exact Nat.le_max_right h0 12
    · omega

theorem patLoop_period_ge (p : Period)
    (hadj : p.adj = Adj.pm ∨ p.adj = Adj.noon)
    (fs : List (Str → Option (Nat × Nat))) (ct : Str) (h m : Nat)
    (hr : patLoop (some p) fs ct = some (h, m)) : 12 ≤ h := by
  induction fs with
  | nil => simp [patLoop] at hr
  | cons f fs ih =>
    unfold patLoop at hr
    cases hf : f ct with
    | none =>
      rw [hf] at hr
      exact ih hr
    | some v =>
      rw [hf] at hr
      obtain ⟨h0, m0⟩ := v
      dsimp only at hr
      by_cases hc : (adjustHour (some p) h0 ≤ 23 && m0 ≤ 59) = true
      · rw [if_pos hc] at hr
        injection hr with hv
        injection hv with hh hm
        rw [← hh]
        exact adjustHour_pm_noon_ge p h0 hadj
      · rw [if_neg hc] at hr
        exact ih hr

theorem patLoop_none_of_all (po : Option Period)
    (fs : List (Str → Option (Nat × Nat))) (ct : Str)
    (h : ∀ f ∈ fs, f ct = none) : patLoop po fs ct = none := by
  induction fs with
  | nil => rfl
  | cons f fs ih =>
    unfold patLoop
    rw [h f (List.mem_cons_self f fs)]
    exact ih (fun g hg => h g (List.mem_cons_of_mem f hg))

theorem timePeriods_pm_noon_default :
    ∀ p ∈ timePeriods, p.adj = Adj.pm ∨ p.adj = Adj.noon → 12 ≤ p.default := by
  decide

/-- Claim C5: the period adjustment adds 12 to an explicit hour below 12 for
pm periods and forces noon periods to 12; whenever the first matching period
word is a pm or noon period, the extracted hour is at least 12; with no
explicit hour pattern matching at all, the extractor returns the period's
default hour with minute 0; and concretely resolve("下午3点") has hour 15 and
resolve("晚上十点") hour 22 for every reference and fallback. -/
theorem c5_period_adjustment :
    (∀ p h0, p.adj = Adj.pm → h0 < 12 → adjustHour (some p) h0 = h0 + 12) ∧
    (∀ p h0, p.adj = Adj.noon → h0 < 12 → adjustHour (some p) h0 = 12) ∧
    (∀ ct ot p h m, findPeriod ot = some p →
        p.adj = Adj.pm ∨ p.adj = Adj.noon →
        extractTime ct ot = some (h, m) → 12 ≤ h) ∧
    (∀ ct ot p, (timePatterns.all fun f => (f ct).isNone) = true →
        findPeriod ot = some p → extractTime ct ot = some (p.default, 0)) ∧
    (∀ fb r, ∃ d, resolve fb (S "下午3点") r = some d ∧
        d.hour = 15 ∧ d.minute = 0) ∧
    (∀ fb r, ∃ d, resolve fb (S "晚上十点") r = some d ∧
        d.hour = 22 ∧ d.minute = 0) := by
  refine ⟨adjustHour_pm, adjustHour_noon, ?_, ?_, ?_, ?_⟩
  · intro ct ot p h m hf hadj hr
    unfold extractTime at hr
    rw [hf] at hr
    cases hp : patLoop (some p) timePatterns ct with
    | some v =>
      rw [hp] at hr
      injection hr with hv
      obtain ⟨h0, m0⟩ := v
      injection hv with hh hm
      rw [← hh]
      exact patLoop_period_ge p hadj timePatterns ct h0 m0 hp
    | none =>
      rw [hp] at hr
      injection hr with hv
      injection hv with hh hm
      rw [← hh]
      exact timePeriods_pm_noon_default p (findPeriod_mem hf) hadj
  · intro ct ot p hall hf
    have hnone : patLoop (findPeriod ot) timePatterns ct = none := by
      refine patLoop_none_of_all _ _ _ (fun f hfm => ?_)
      have := List.all_eq_true.mp hall f hfm
      exact Option.isNone_iff_eq_none.mp this
    unfold extractTime
    rw [hnone, hf]
  · intro fb r
    have hpc : parseComplex (S "下午3点") r =
        some (if dtLt (setHMS0 r 15 0) r then
                addDays (setHMS0 r 15 0) 1
              else setHMS0 r 15 0) := by
      show some (if sameDate r r && dtLt (setHMS0 r 15 0) r &&
                    !hasDateKw (S "下午3点") then
                   addDays (setHMS0 r 15 0) 1
                 else setHMS0 r 15 0) = _
      rw [sameDate_refl, show hasDateKw (S "下午3点") = false from by decide]
      simp only [Bool.true_and, Bool.not_false, Bool.and_true]
    refine ⟨if dtLt (setHMS0 r 15 0) r then addDays (setHMS0 r 15 0) 1
            else setHMS0 r 15 0, ?_, ?_, ?_⟩
    · show (match parseComplex (S "下午3点") r with
            | some x => some x
            | none => fb (S "下午3点") r) = _
      rw [hpc]
    · by_cases hlt : dtLt (setHMS0 r 15 0) r = true
      · rw [if_pos hlt, addDays_one_hour]
        rfl
      · rw [if_neg hlt]
        rfl
    · by_cases hlt : dtLt (setHMS0 r 15 0) r = true
      · rw [if_pos hlt, addDays_one_minute]
        rfl
      · rw [if_neg hlt]
        rfl

  · intro fb r
    have hpc : parseComplex (S "晚上十点") r =
        some (if dtLt (setHMS0 r 22 0) r then
                addDays (setHMS0 r 22 0) 1
              else setHMS0 r 22 0) := by
      show some (if sameDate r r && dtLt (setHMS0 r 22 0) r &&
                    !hasDateKw (S "晚上十点") then
                   addDays (setHMS0 r 22 0) 1
                 else setHMS0 r 22 0) = _
      rw [sameDate_refl, show hasDateKw (S "晚上十点") = false from by decide]
      simp only [Bool.true_and, Bool.not_false, Bool.and_true]
    refine ⟨if dtLt (setHMS0 r 22 0) r then addDays (setHMS0 r 22 0) 1
            else setHMS0 r 22 0, ?_, ?_, ?_⟩
    · show (match parseComplex (S "晚上十点") r with
            | some x => some x
            | none => fb (S "晚上十点") r) = _
      rw [hpc]
    · by_cases hlt : dtLt (setHMS0 r 22 0) r = true
      · rw [if_pos hlt, addDays_one_hour]
        rfl
      · rw [if_neg hlt]
        rfl
    · by_cases hlt : dtLt (setHMS0 r 22 0) r = true
      · rw [if_pos hlt, addDays_one_minute]
        rfl
      · rw [if_neg hlt]
        rfl

/-- Claim C5 witness: the pm, noon, invariant, and default parts applied at
concrete inputs (the 下午 period with hour 3; the 中午 period with hour 9;
the extraction of "晚上10点"; the bare period word "下午"). -/
theorem c5_period_adjustment_witness :
    adjustHour (some ⟨S "下午", 15, Adj.pm⟩) 3 = 15 ∧
    adjustHour (some ⟨S "中午", 12, Adj.noon⟩) 9 = 12 ∧
    (12 : Nat) ≤ 22 ∧
    extractTime (S "下午") (S "下午") = some (15, 0) :=
  ⟨c5_period_adjustment.1 ⟨S "下午", 15, Adj.pm⟩ 3 rfl (by decide),
   c5_period_adjustment.2.1 ⟨S "中午", 12, Adj.noon⟩ 9 rfl (by decide),
   c5_period_adjustment.2.2.1 (S "晚上10点") (S "晚上十点")
     ⟨S "晚上", 20, Adj.pm⟩ 22 0 (by decide) (Or.inl rfl) (by decide),
   c5_period_adjustment.2.2.2.1 (S "下午") (S "下午") ⟨S "下午", 15, Adj.pm⟩
     (by decide) (by decide)⟩

/-! ## Claim C8 (status: corrected) — normalizer lemmas -/

theorem isPrefixL_mem {n s : Str} (h : isPrefixL n s = true) :
    ∀ c ∈ n, c ∈ s := by
  induction n generalizing s with
  | nil => intro c hc; cases hc
  | cons a as ih =>
    cases s with
    | nil => cases h
    | cons b bs =>
      simp only [isPrefixL, Bool.and_eq_true, beq_iff_eq] at h
      intro c hc
      rcases List.mem_cons.mp hc with h1 | h1
      · exact List.mem_cons.mpr (Or.inl (h1.trans h.1))
      · exact List.mem_cons.mpr (Or.inr (ih h.2 c h1))

theorem containsSub_mem {n s : Str} (h : containsSub n s = true) :
    ∀ c ∈ n, c ∈ s := by
  induction s with
  | nil =>
    intro c hc
    have : n.isEmpty = true := h
    rw [List.isEmpty_iff.mp this] at hc
    cases hc
  | cons b bs ih =>
    simp only [containsSub, Bool.or_eq_true] at h
    intro c hc
    rcases h with h1 | h1
    · exact isPrefixL_mem h1 c hc
    · exact List.mem_cons.mpr (Or.inr (ih h1 c hc))

theorem isPrefixL_containsSub {n s : Str} (hn : n ≠ []) (h : isPrefixL n s = true) :
    containsSub n s = true := by
  cases s with
  | nil =>
    cases n with
    | nil => exact absurd rfl hn
    | cons a as => cases h
  | cons b bs =>
    simp only [containsSub, Bool.or_eq_true]
    exact Or.inl h

theorem containsSub_append_right {n : Str} (a b : Str)
    (h : containsSub n b = true) : containsSub n (a ++ b) = true := by
  induction a with
  | nil => exact h
  | cons x xs ih =>
    simp only [List.cons_append, containsSub, Bool.or_eq_true]
    exact Or.inr ih

theorem containsSub_cons_tail {n : Str} {c : Char} {rest : Str}
    (h : containsSub n (c :: rest) = false) : containsSub n rest = false := by
  simp only [containsSub, Bool.or_eq_false_iff] at h
  exact h.2

theorem mem_replaceAllAux {k v : Str} (fuel : Nat) (s : Str) {x : Char}
    (hx : x ∈ replaceAllAux k v fuel s) : x ∈ s ∨ x ∈ v := by
  induction fuel generalizing s with
  | zero =>
    cases s with
    | nil => cases hx
    | cons c rest => exact Or.inl hx
  | succ fuel ih =>
    cases s with
    | nil => cases hx
    | cons c rest =>
      unfold replaceAllAux at hx
      by_cases hc : (k.isEmpty = false && isPrefixL k (c :: rest)) = true
      · rw [if_pos hc] at hx
        rcases List.mem_append.mp hx with h1 | h1
        · exact Or.inr h1
        · rcases ih _ h1 with h2 | h2
          · exact Or.inl (List.mem_cons.mpr (Or.inr (List.mem_of_mem_drop h2)))
          · exact Or.inr h2
      · rw [if_neg hc] at hx
        rcases List.mem_cons.mp hx with h1 | h1
        · exact Or.inl (List.mem_cons.mpr (Or.inl h1))
        · rcases ih _ h1 with h2 | h2
          · exact Or.inl (List.mem_cons.mpr (Or.inr h2))
          · exact Or.inr h2

theorem replaceAllAux_single_not_mem {c : Char} {v : Str} (hcv : c ∉ v)
    (fuel : Nat) (s : Str) (hfuel : s.length ≤ fuel) :
    c ∉ replaceAllAux [c] v fuel s := by
  induction fuel generalizing s with
  | zero =>
    cases s with
    | nil => intro hx; cases hx
    | cons a rest => simp at hfuel
  | succ fuel ih =>
    cases s with
    | nil => intro hx; cases hx
    | cons a rest =>
      unfold replaceAllAux
      by_cases hc : (List.isEmpty [c] = false && isPrefixL [c] (a :: rest)) = true
      · rw [if_pos hc]
        intro hx
        rcases List.mem_append.mp hx with h1 | h1
        · exact hcv h1
        · have hlen : (rest.drop (List.length [c] - 1)).length ≤ fuel := by
            simp only [List.length_cons] at hfuel
            simp only [List.length_drop, List.length_singleton]
            omega
          exact ih _ hlen h1
      · rw [if_neg hc]
        intro hx
        rcases List.mem_cons.mp hx with h1 | h1
        · apply absurd hc
          simp only [h1, List.isEmpty_cons, Bool.true_and, isPrefixL,
            beq_self_eq_true, Bool.and_self, not_not]
          rfl
        · have hlen : rest.length ≤ fuel := by
            simp only [List.length_cons] at hfuel
            omega
          exact ih _ hlen h1

theorem replaceAllAux_id {k v : Str} (fuel : Nat) (s : Str)
    (h : containsSub k s = false) : replaceAllAux k v fuel s = s := by
  induction fuel generalizing s with
  | zero =>
    cases s with
    | nil => rfl
    | cons a rest => rfl
  | succ fuel ih =>
    cases s with
    | nil => rfl
    | cons a rest =>
      unfold replaceAllAux
      have hpre : isPrefixL k (a :: rest) = false := by
        by_contra hne
        rw [Bool.not_eq_false] at hne
        have hk : k ≠ [] := by
          intro hk0
          rw [hk0] at h
          simp [containsSub, isPrefixL] at h
        rw [isPrefixL_containsSub hk hne] at h
        cases h
      rw [hpre, Bool.and_false, if_neg (by simp)]
      rw [ih rest (containsSub_cons_tail h)]

theorem replaceAll_id {k v s : Str} (h : containsSub k s = false) :
    replaceAll k v s = s :=
  replaceAllAux_id s.length s h

theorem replaceAll_not_mem {k v s : Str} {c : Char} (hs : c ∉ s) (hv : c ∉ v) :
    c ∉ replaceAll k v s := by
  intro hx
  rcases mem_replaceAllAux s.length s hx with h | h
  · exact hs h
  · exact hv h

theorem replaceAll_single_not_mem {c : Char} {v : Str} (hcv : c ∉ v) (s : Str) :
    c ∉ replaceAll [c] v s :=
  replaceAllAux_single_not_mem hcv s.length s (Nat.le_refl _)

theorem foldl_replaceAll_id {L : List (Str × Str)} {s : Str}
    (h : ∀ kv ∈ L, containsSub kv.1 s = false) :
    L.foldl (fun acc kv => replaceAll kv.1 kv.2 acc) s = s := by
  induction L with
  | nil => rfl
  | cons kv L ih =>
    rw [List.foldl_cons, replaceAll_id (h kv (List.mem_cons_self kv L))]
    exact ih (fun kv2 h2 => h kv2 (List.mem_cons_of_mem kv h2))

theorem foldl_replaceAll_not_mem {L : List (Str × Str)} {s : Str} {c : Char}
    (hs : c ∉ s) (hv : ∀ kv ∈ L, c ∉ kv.2) :
    c ∉ L.foldl (fun acc kv => replaceAll kv.1 kv.2 acc) s := by
  induction L generalizing s with
  | nil => exact hs
  | cons kv L ih =>
    rw [List.foldl_cons]
    exact ih (replaceAll_not_mem hs (hv kv (List.mem_cons_self kv L)))
      (fun kv2 h2 => hv kv2 (List.mem_cons_of_mem kv h2))

theorem foldl_replaceAll_single_pass {L : List (Str × Str)} {c : Char}
    {v0 : Str} (hentry : ([c], v0) ∈ L) (hv : ∀ kv ∈ L, c ∉ kv.2) (s : Str) :
    c ∉ L.foldl (fun acc kv => replaceAll kv.1 kv.2 acc) s := by
  induction L generalizing s with
  | nil => cases hentry
  | cons kv L ih =>
    rw [List.foldl_cons]
    rcases List.mem_cons.mp hentry with h1 | h1
    · rw [← h1]
      exact foldl_replaceAll_not_mem
        (replaceAll_single_not_mem
          (by
            have := hv kv (List.mem_cons_self kv L)
            rw [← h1] at this
            exact this) s)
        (fun kv2 h2 => hv kv2 (List.mem_cons_of_mem kv h2))
    · exact ih h1 (fun kv2 h2 => hv kv2 (List.mem_cons_of_mem kv h2)) _

theorem subRunAux_id_no_cls {cls : Char → Bool} {marker repl : Str}
    (fuel : Nat) (s : Str) (h : ∀ c ∈ s, cls c = false) :
    subRunAux cls marker repl fuel s = s := by
  induction fuel generalizing s with
  | zero =>
    cases s with
    | nil => rfl
    | cons a rest => rfl
  | succ fuel ih =>
    cases s with
    | nil => rfl
    | cons a rest =>
      unfold subRunAux
      rw [h a (List.mem_cons_self a rest)]
      simp only [Bool.false_eq_true, if_false]
      rw [ih rest (fun c hc => h c (List.mem_cons_of_mem a hc))]

theorem subRunAux_id_no_marker {cls : Char → Bool} {marker repl : Str}
    (hm : marker ≠ []) (fuel : Nat) (s : Str)
    (h : containsSub marker s = false) :
    subRunAux cls marker repl fuel s = s := by
  induction fuel generalizing s with
  | zero =>
    cases s with
    | nil => rfl
    | cons a rest => rfl
  | succ fuel ih =>
    cases s with
    | nil => rfl
    | cons a rest =>
      unfold subRunAux
      by_cases hc : cls a = true
      · rw [hc]
        simp only [if_true]
        have hpre : isPrefixL marker (takeRun cls (a :: rest)).2 = false := by
          by_contra hne
          rw [Bool.not_eq_false] at hne
          have h1 : containsSub marker ((takeRun cls (a :: rest)).1 ++
              (takeRun cls (a :: rest)).2) = true :=
            containsSub_append_right _ _ (isPrefixL_containsSub hm hne)
          rw [takeRun_append] at h1
          rw [h1] at h
          cases h
        rw [hpre]
        simp only [Bool.false_eq_true, if_false]
        rw [ih rest (containsSub_cons_tail h)]
      · rw [Bool.not_eq_true] at hc
        rw [hc]
        simp only [Bool.false_eq_true, if_false]
        rw [ih rest (containsSub_cons_tail h)]

theorem subRun_id_no_cls {cls : Char → Bool} {marker repl : Str} (s : Str)
    (h : ∀ c ∈ s, cls c = false) : subRun cls marker repl s = s :=
  subRunAux_id_no_cls s.length s h

theorem subRun_id_no_marker {cls : Char → Bool} {marker repl : Str}
    (hm : marker ≠ []) (s : Str) (h : containsSub marker s = false) :
    subRun cls marker repl s = s :=
  subRunAux_id_no_marker hm s.length s h

theorem cnSorted_vals_digit :
    ∀ kv ∈ cnSorted, ∀ ch ∈ kv.2, ch.isDigit = true := by decide

theorem cnSingles_not_digit : ∀ c ∈ cnSingles, c.isDigit = false := by decide

theorem cnSorted_keys_nonempty_cn :
    ∀ kv ∈ cnSorted, kv.1 ≠ [] ∧ ∀ ch ∈ kv.1, ch ∈ cnSingles := by decide

theorem cnSingles_have_entry :
    ∀ c ∈ cnSingles, cnSorted.any (fun kv => kv.1 == [c]) = true := by decide

theorem halfCls_sub {c : Char} (h : halfCls c = true) : c ∈ cnSingles := by
  have h1 : c ∈ S "一二三四五六七八九十两" := by
    unfold halfCls at h
    simpa using h
  have h2 : ∀ x ∈ S "一二三四五六七八九十两", x ∈ cnSingles := by decide
  exact h2 c h1

theorem keCls_sub {c : Char} (h : keCls c = true) : c ∈ cnSingles := by
  have h1 : c ∈ S "一二三四五六七八九十" := by
    unfold keCls at h
    simpa using h
  have h2 : ∀ x ∈ S "一二三四五六七八九十", x ∈ cnSingles := by decide
  exact h2 c h1

theorem noCN_not_mem {s : Str} (h : noCN s = true) {c : Char}
    (hc : c ∈ cnSingles) : c ∉ s := by
  intro hcs
  have h1 := List.all_eq_true.mp h c hcs
  rw [Bool.not_eq_true'] at h1
  have hmem : cnSingles.contains c = true := by simpa using hc
  rw [h1] at hmem
  cases hmem

/-- Every output of the numeral normalizer is free of Chinese-numeral
characters: the final longest-first replacement pass eliminates each numeral
character (its single-character entry replaces every occurrence, and every
replacement value consists of digits only). -/
theorem convertCN_noCN (s : Str) : noCN (convertCN s) = true := by
  unfold noCN
  rw [List.all_eq_true]
  intro c hc
  rw [Bool.not_eq_true']
  by_contra hne
  rw [Bool.not_eq_false] at hne
  have hcmem : c ∈ cnSingles := by simpa using hne
  obtain ⟨kv, hkv, hkveq⟩ := List.any_eq_true.mp (cnSingles_have_entry c hcmem)
  have hkeq : kv.1 = [c] := by simpa using hkveq
  have hv : ∀ kv2 ∈ cnSorted, c ∉ kv2.2 := by
    intro kv2 hkv2 hcin
    have hd := cnSorted_vals_digit kv2 hkv2 c hcin
    have hnd := cnSingles_not_digit c hcmem
    rw [hd] at hnd
    cases hnd
  have hentry : ([c], kv.2) ∈ cnSorted := by
    rw [← hkeq]
    exact hkv
  have hc2 : c ∈ cnSorted.foldl (fun acc kv => replaceAll kv.1 kv.2 acc)
      (subRun Char.isDigit (S "点三刻") (S "点45")
        (subRun Char.isDigit (S "点一刻") (S "点15")
          (subRun keCls (S "点三刻") (S "点45")
            (subRun keCls (S "点一刻") (S "点15")
              (subRun Char.isDigit (S "点半") (S "点30")
                (subRun halfCls (S "点半") (S "点30") s)))))) := hc
  exact foldl_replaceAll_single_pass hentry hv _ hc2

/-- On a string containing neither a Chinese-numeral character nor a
fractional-marker sequence, the normalizer is the identity. -/
theorem convertCN_id (s : Str) (h1 : noCN s = true) (h2 : noMarker s = true) :
    convertCN s = s := by
  have hm : containsSub (S "点半") s = false ∧
      containsSub (S "点一刻") s = false ∧
      containsSub (S "点三刻") s = false := by
    unfold noMarker at h2
    simp only [Bool.and_eq_true, Bool.not_eq_true'] at h2
    exact ⟨h2.1.1, h2.1.2, h2.2⟩
  have hhalf : ∀ c ∈ s, halfCls c = false := by
    intro c hc
    by_contra hne
    rw [Bool.not_eq_false] at hne
    exact noCN_not_mem h1 (halfCls_sub hne) hc
  have hke : ∀ c ∈ s, keCls c = false := by
    intro c hc
    by_contra hne
    rw [Bool.not_eq_false] at hne
    exact noCN_not_mem h1 (keCls_sub hne) hc
  have e1 : subRun halfCls (S "点半") (S "点30") s = s :=
    subRun_id_no_cls s hhalf
  have e2 : subRun Char.isDigit (S "点半") (S "点30") s = s :=
    subRun_id_no_marker (by decide) s hm.1
  have e3 : subRun keCls (S "点一刻") (S "点15") s = s :=
    subRun_id_no_cls s hke
  have e4 : subRun keCls (S "点三刻") (S "点45") s = s :=
    subRun_id_no_cls s hke
  have e5 : subRun Char.isDigit (S "点一刻") (S "点15") s = s :=
    subRun_id_no_marker (by decide) s hm.2.1
  have e6 : subRun Char.isDigit (S "点三刻") (S "点45") s = s :=
    subRun_id_no_marker (by decide) s hm.2.2
  have efold : cnSorted.foldl (fun acc kv => replaceAll kv.1 kv.2 acc) s = s := by
    apply foldl_replaceAll_id
    intro kv hkv
    by_contra hne
    rw [Bool.not_eq_false] at hne
    obtain ⟨hne2, hcn⟩ := cnSorted_keys_nonempty_cn kv hkv
    obtain ⟨c0, hc0⟩ := List.exists_mem_of_ne_nil kv.1 hne2
    exact noCN_not_mem h1 (hcn c0 hc0) (containsSub_mem hne c0 hc0)
  show cnSorted.foldl (fun acc kv => replaceAll kv.1 kv.2 acc)
      (subRun Char.isDigit (S "点三刻") (S "点45")
        (subRun Char.isDigit (S "点一刻") (S "点15")
          (subRun keCls (S "点三刻") (S "点45")
            (subRun keCls (S "点一刻") (S "点15")
              (subRun Char.isDigit (S "点半") (S "点30")
                (subRun halfCls (S "点半") (S "点30") s)))))) = s
  rw [e1, e2, e3, e4, e5, e6, efold]

/-- Claim C8 counterexample: the normalizer is not idempotent on "零点半":
the first pass turns 零 into the digit 0 (the 点半 substitution does not fire
because 零 is outside its regex character class), leaving "0点半", which a
second pass rewrites to "0点30". -/
theorem c8_counterexample :
    convertCN (S "零点半") = S "0点半" ∧
    convertCN (convertCN (S "零点半")) = S "0点30" ∧
    convertCN (convertCN (S "零点半")) ≠ convertCN (S "零点半") := by
  refine ⟨by decide, by decide, by decide⟩

/-- Claim C8 (amended): the normalizer is a deterministic total function;
its output never contains a Chinese-numeral character; it is idempotent at
every input whose output contains no residual fractional-marker sequence
(点半/点一刻/点三刻) — which covers all marker-free strings and the typical
forms such as 三点半, but not e.g. 零点半 — and it is the identity on every
string containing neither a Chinese-numeral character nor a marker
sequence. -/
theorem c8_normalizer :
    (∀ s, noCN (convertCN s) = true) ∧
    (∀ s, noMarker (convertCN s) = true →
        convertCN (convertCN s) = convertCN s) ∧
    (∀ s, noCN s = true → noMarker s = true → convertCN s = s) :=
  ⟨convertCN_noCN,
   fun s h => convertCN_id (convertCN s) (convertCN_noCN s) h,
   convertCN_id⟩

/-- Claim C8 witness: idempotence at "三点半" (whose normal form "3点30" is
marker-free) and identity on the numeral-free, marker-free "hello 15:30". -/
theorem c8_normalizer_witness :
    convertCN (convertCN (S "三点半")) = convertCN (S "三点半") ∧
    convertCN (S "hello 15:30") = S "hello 15:30" :=
  ⟨c8_normalizer.2.1 (S "三点半") (by decide),
   c8_normalizer.2.2 (S "hello 15:30") (by decide) (by decide)⟩

end TimeParserModel
